import Mathlib

/-!
Verification of the quantum-circuit simulation engine
(`src/sim/complex.js`, `src/sim/gates_extra.js`, `src/sim/statevector.js`,
`src/model/circuit.js`) against its natural-language specification.

Amplitudes are modelled as pairs of exact reals; machine words of the RNG
are modelled as `Nat` reduced modulo `2^32` exactly where JavaScript's
32-bit semantics (`>>> 0`, `Math.imul`, `<<`) truncate.  State vectors are
total functions `Nat → ℝ × ℝ`; the engine only ever reads and writes
indices below `2^numQubits`, and every theorem about vector contents is
stated on that range.
-/

set_option linter.unusedVariables false

namespace QCSim

/-! ### Complex arithmetic (`src/sim/complex.js`) -/

/-- `cMul` from `src/sim/complex.js`: `(a+bi)(c+di)`. -/
def cMul (a b : ℝ × ℝ) : ℝ × ℝ :=
  (a.1 * b.1 - a.2 * b.2, a.1 * b.2 + a.2 * b.1)

/-- `cAdd` from `src/sim/complex.js`. -/
def cAdd (a b : ℝ × ℝ) : ℝ × ℝ :=
  (a.1 + b.1, a.2 + b.2)

/-- `cAbs2` from `src/sim/complex.js`: squared magnitude `re*re + im*im`. -/
def cAbs2 (a : ℝ × ℝ) : ℝ :=
  a.1 * a.1 + a.2 * a.2

/-! ### Seeded RNG (`src/sim/complex.js`, class `SeededRNG`) -/

/-- JavaScript `>>> 0` / 32-bit truncation: reduce modulo `2^32`. -/
def u32 (x : Nat) : Nat := x % 4294967296

/-- JavaScript `Math.imul`: 32-bit multiplication.  The sign of the JS
result is irrelevant here because every consumer reapplies `>>> 0` or a
further bitwise operation, so we keep the unsigned residue. -/
def imul (a b : Nat) : Nat := u32 (a * b)

/-- One step of the splitmix32 seed expansion used by the `SeededRNG`
constructor: takes the running seed word, returns the advanced seed word
and the produced state word. -/
def splitmix32 (s : Nat) : Nat × Nat :=
  let s1 := u32 (s + 0x9e3779b9)
  let z0 := s1
  let z1 := z0 ^^^ (z0 >>> 16)
  let z2 := imul z1 0x85ebca6b
  let z3 := z2 ^^^ (z2 >>> 13)
  let z4 := imul z3 0xc2b2ae35
  let z5 := z4 ^^^ (z4 >>> 16)
  (s1, z5)

/-- State of the xoshiro128** generator: the four 32-bit state words
`this.s` of class `SeededRNG`. -/
structure SeededRNG where
  s0 : Nat
  s1 : Nat
  s2 : Nat
  s3 : Nat

/-- The `SeededRNG` constructor: `seed >>> 0`, then four splitmix32 draws
initialise the state words. -/
def mkRNG (seed : Nat) : SeededRNG :=
  let a := splitmix32 (u32 seed)
  let b := splitmix32 a.1
  let c := splitmix32 b.1
  let d := splitmix32 c.1
  ⟨a.2, b.2, c.2, d.2⟩

/-- 32-bit left rotation, JS `(x << k) | (x >>> (32 - k))` for `x < 2^32`. -/
def rotl32 (x k : Nat) : Nat :=
  u32 (x <<< k) ||| (x >>> (32 - k))

/-- `SeededRNG.next`: returns the uniform value in `[0,1)` (the JS double
`(result >>> 0) / 0x100000000`, exact here as a rational) together with
the updated generator state (the JS method mutates `this.s` in place;
we pass the state explicitly). -/
def rngNext (r : SeededRNG) : ℚ × SeededRNG :=
  let result := imul (u32 (r.s1 * 5)) 7
  let t := u32 (r.s1 <<< 9)
  let a := r.s2 ^^^ r.s0
  let b := r.s3 ^^^ r.s1
  let c := r.s1 ^^^ a
  let d := r.s0 ^^^ b
  let e := a ^^^ t
  let f := rotl32 b 11
  ((result : ℚ) / 4294967296, ⟨d, c, e, f⟩)

/-- State-only advance of the generator. -/
def rngNextSt (r : SeededRNG) : SeededRNG := (rngNext r).2

/-- Value produced by the `(k+1)`-th call to `next()` on generator `r`. -/
def rngValueAt (r : SeededRNG) (k : Nat) : ℚ :=
  (rngNext (rngNextSt^[k] r)).1

/-- The `k`-th value of the stream of the generator seeded with `seed`. -/
def rngStream (seed k : Nat) : ℚ :=
  rngValueAt (mkRNG seed) k

/-! ### Cumulative sampling (`src/sim/statevector.js` lines 123-133 and
340-350; the two loops are textually identical, so one embedding serves
both call sites) -/

/-- The sampling loop: walk the probability list, accumulating
`cum`; return the current index `idx` as soon as `r < cum + p`; if the
list is exhausted return the default `dflt` (initialised to `dim - 1`
before the loop). -/
noncomputable def sampleAux (r : ℝ) : List ℝ → ℝ → Nat → Nat → Nat
  | [], _, _, dflt => dflt
  | p :: rest, cum, idx, dflt =>
    if r < cum + p then idx else sampleAux r rest (cum + p) (idx + 1) dflt

/-- The sampled outcome for probabilities `probs` and draw `r`:
`outcome = dim - 1` initially, then the first-exceeding walk. -/
noncomputable def sampleOutcome (probs : List ℝ) (r : ℝ) : Nat :=
  sampleAux r probs 0 0 (probs.length - 1)

/-- Cumulative probability through index `i` (inclusive), the value the
source's `cumulative` variable holds when the loop tests index `i`. -/
def cumulProb (probs : List ℝ) (i : Nat) : ℝ :=
  (probs.take (i + 1)).sum

/-! ### Gate and circuit model (`src/model/circuit.js`) -/

/-- A placed gate (`class Gate`).  The JS `params` object is flattened to
its two used fields; an absent or NaN numeric parameter is modelled as
`none` (both are falsy under the engine's `|| 0` and both fail the
model's `theta == null || isNaN(theta)` check).  The display-only `id`
field is dropped. -/
structure Gate where
  type : String
  targets : List Nat
  controls : List Nat
  theta : Option ℝ
  phi : Option ℝ
  col : Nat

/-- `class Circuit`: a grid of `numQubits` wires by `numCols` columns
holding a list of placed gates. -/
structure Circuit where
  numQubits : Nat
  numCols : Nat
  gates : List Gate

/-- `Circuit.getGatesAtCol`. -/
def Circuit.getGatesAtCol (c : Circuit) (col : Nat) : List Gate :=
  c.gates.filter fun g => g.col = col

/-- `GATE_HAS_PARAM` from `src/model/circuit.js`: rotation gates require a
theta parameter. -/
def GATE_HAS_PARAM (ty : String) : Prop :=
  ty = "Rx" ∨ ty = "Ry" ∨ ty = "Rz"

instance (ty : String) : Decidable (GATE_HAS_PARAM ty) := by
  unfold GATE_HAS_PARAM; infer_instance

/-- `Circuit._validate` (called from `addGate`): range check on all
involved qubits (`allQubits = controls ++ targets`; the `q < 0` half of
the JS check is vacuous for `Nat` indices), cell-collision check against
gates already in the column, and the rotation-parameter check.  The JS
messages interpolate gate data; here they are fixed strings. -/
def validateGate (c : Circuit) (g : Gate) : Except String Unit :=
  if (g.controls ++ g.targets).any (fun q => decide (c.numQubits ≤ q)) then
    Except.error "Qubit out of range"
  else if (c.getGatesAtCol g.col).any
      (fun eg => (g.controls ++ g.targets).any
        fun q => (eg.controls ++ eg.targets).contains q) then
    Except.error "Cell collision"
  else if GATE_HAS_PARAM g.type ∧ g.theta.isNone then
    Except.error "Gate requires theta parameter"
  else
    Except.ok ()

/-! ### Single-qubit gates (`src/sim/statevector.js`) -/

/-- A 2x2 complex matrix, rows by columns, as in `GATE_MATRICES`. -/
structure Mat2 where
  m00 : ℝ × ℝ
  m01 : ℝ × ℝ
  m10 : ℝ × ℝ
  m11 : ℝ × ℝ

/-- `Math.SQRT1_2`. -/
noncomputable def INV_SQRT2 : ℝ := Real.sqrt (1 / 2)

/-- The `GATE_MATRICES` table: fixed 1-qubit matrices keyed by type
string; `none` for any other key (JS property lookup yields
`undefined`). -/
noncomputable def gateMatrix (ty : String) : Option Mat2 :=
  if ty = "I" then some ⟨(1, 0), (0, 0), (0, 0), (1, 0)⟩
  else if ty = "X" then some ⟨(0, 0), (1, 0), (1, 0), (0, 0)⟩
  else if ty = "Y" then some ⟨(0, 0), (0, -1), (0, 1), (0, 0)⟩
  else if ty = "Z" then some ⟨(1, 0), (0, 0), (0, 0), (-1, 0)⟩
  else if ty = "H" then
    some ⟨(INV_SQRT2, 0), (INV_SQRT2, 0), (INV_SQRT2, 0), (-INV_SQRT2, 0)⟩
  else if ty = "S" then some ⟨(1, 0), (0, 0), (0, 0), (0, 1)⟩
  else if ty = "T" then some ⟨(1, 0), (0, 0), (0, 0), (INV_SQRT2, INV_SQRT2)⟩
  else none

/-- JS `x & ~b`: clear the bits of `b` in `x` (the widths in play are at
most 32 bits,`x ^^^ (x &&& b)` is the same bit pattern). -/
def andNot (x b : Nat) : Nat := x ^^^ (x &&& b)

/-- `_applySingleGate`: the loop pairs each index `i0` (target bit 0)
with `i1 = i0 | bit` and writes `M.(a0,a1)` into the pair.  Functionally:
an index with target bit 0 receives row 0 of the product, an index with
target bit 1 receives row 1, with `a0`/`a1` read at the two pair
members. -/
noncomputable def applySingleGate (state : Nat → ℝ × ℝ) (m : Mat2)
    (targetQubit : Nat) : Nat → ℝ × ℝ := fun i =>
  let bit := 1 <<< targetQubit
  if i &&& bit = 0 then
    cAdd (cMul m.m00 (state i)) (cMul m.m01 (state (i ||| bit)))
  else
    cAdd (cMul m.m10 (state (andNot i bit))) (cMul m.m11 (state i))

/-- `_applyRotationGate`'s matrix construction from `theta / 2`.  The
source has no final `else`; the dispatcher only routes `Rx`, `Ry`, `Rz`
here, so the unreachable fallback is the identity matrix. -/
noncomputable def rotationGateMatrix (ty : String) (theta : ℝ) : Mat2 :=
  let half := theta / 2
  let c := Real.cos half
  let s := Real.sin half
  if ty = "Rx" then ⟨(c, 0), (0, -s), (0, -s), (c, 0)⟩
  else if ty = "Ry" then ⟨(c, 0), (-s, 0), (s, 0), (c, 0)⟩
  else if ty = "Rz" then
    ⟨(Real.cos (-half), Real.sin (-half)), (0, 0), (0, 0),
      (Real.cos half, Real.sin half)⟩
  else ⟨(1, 0), (0, 0), (0, 0), (1, 0)⟩

/-- `_applyRotationGate`: `theta = gate.params.theta || 0` (absent or NaN
falls back to 0, modelled by `Option.getD`), then the single-qubit
path. -/
noncomputable def applyRotationGate (state : Nat → ℝ × ℝ) (g : Gate)
    (numQubits : Nat) : Nat → ℝ × ℝ :=
  applySingleGate state (rotationGateMatrix g.type (g.theta.getD 0))
    (g.targets.getD 0 0)

/-- `_applyControlledGate` (CX/CNOT/CZ with a control mask built from
`gate.controls`, empty if absent).  The loop visits each index `i0` whose
control bits are all set and whose target bit is 0; for CX it swaps the
amplitudes of `i0` and `i1 = i0 | targetBit`, for CZ it negates the
amplitude at `i1`.  Functionally: an index with target bit 0 whose
control bits are set takes its pair partner's amplitude under CX; an
index with target bit 1 whose partner (target bit cleared) satisfies the
control mask takes the partner's amplitude under CX, or is negated under
CZ; every other index keeps its amplitude. -/
def applyControlledGate (state : Nat → ℝ × ℝ) (g : Gate)
    (numQubits : Nat) : Nat → ℝ × ℝ :=
  let target := g.targets.getD 0 0
  let controlMask := g.controls.foldl (fun acc c => acc ||| (1 <<< c)) 0
  let targetBit := 1 <<< target
  fun i =>
    if g.type = "CX" ∨ g.type = "CNOT" then
      if i &&& controlMask = controlMask ∧ i &&& targetBit = 0 then
        state (i ||| targetBit)
      else if i &&& targetBit ≠ 0 ∧
          (andNot i targetBit) &&& controlMask = controlMask then
        state (andNot i targetBit)
      else state i
    else if g.type = "CZ" then
      if i &&& targetBit ≠ 0 ∧
          (andNot i targetBit) &&& controlMask = controlMask then
        (-(state i).1, -(state i).2)
      else state i
    else state i

/-- `_applySWAP`: the loop visits every index with qubit `q1` bit 0 and
qubit `q2` bit 1 and swaps its amplitude with the partner index
`(i | b1) & ~b2` (bits 1,0); each pair is visited exactly once because
the partner fails the loop's entry condition.  Functionally: a (0,1)
index takes the partner's amplitude, a (1,0) index takes its partner's
amplitude, all other indices are unchanged. -/
def applySWAP (state : Nat → ℝ × ℝ) (q1 q2 numQubits : Nat) :
    Nat → ℝ × ℝ := fun i =>
  let b1 := 1 <<< q1
  let b2 := 1 <<< q2
  if i &&& b1 = 0 ∧ i &&& b2 ≠ 0 then state (andNot (i ||| b1) b2)
  else if i &&& b1 ≠ 0 ∧ i &&& b2 = 0 then state ((andNot i b1) ||| b2)
  else state i

/-! ### Extra gates (`src/sim/gates_extra.js`) -/

/-- `applyControlledPhase`: indices with both control and target bit set
are multiplied by `e^{i phi}` (expanded to the source's explicit
`(re*cos - im*sin, re*sin + im*cos)` form). -/
noncomputable def applyControlledPhase (state : Nat → ℝ × ℝ)
    (control target : Nat) (phi : ℝ) : Nat → ℝ × ℝ := fun i =>
  let checkMask := (1 <<< control) ||| (1 <<< target)
  if i &&& checkMask = checkMask then
    ((state i).1 * Real.cos phi - (state i).2 * Real.sin phi,
     (state i).1 * Real.sin phi + (state i).2 * Real.cos phi)
  else state i

/-- `applyControlledRz`: indices with the control bit set are multiplied
by `e^{-i theta/2}` (target bit 0) or `e^{i theta/2}` (target bit 1). -/
noncomputable def applyControlledRz (state : Nat → ℝ × ℝ)
    (control target : Nat) (theta : ℝ) : Nat → ℝ × ℝ := fun i =>
  let ctrlBit := 1 <<< control
  let targetBit := 1 <<< target
  let c := Real.cos (theta / 2)
  let s := Real.sin (theta / 2)
  if i &&& ctrlBit ≠ 0 then
    if i &&& targetBit = 0 then
      ((state i).1 * c + (state i).2 * s, (state i).2 * c - (state i).1 * s)
    else
      ((state i).1 * c - (state i).2 * s, (state i).2 * c + (state i).1 * s)
  else state i

/-- First loop of `applyControlledSwap` (lines 127-148): for every index
with the control bit set and target bits in the (0,1) pattern, swap with
the partner `(i | b1) & ~b2`.  Contrary to the in-source comment, this
loop does NOT undo itself: the (1,0) partner fails the `(i & b1) === 0`
entry test.  Functionally: a (0,1) index with control set takes its
partner's amplitude; a (1,0) index takes its partner's amplitude when the
partner (which carries the control bit unchanged only if the control is
not one of the targets) has the control bit set. -/
def cswapPassOne (state : Nat → ℝ × ℝ) (control t1 t2 : Nat) :
    Nat → ℝ × ℝ := fun i =>
  let ctrlBit := 1 <<< control
  let b1 := 1 <<< t1
  let b2 := 1 <<< t2
  if i &&& ctrlBit ≠ 0 ∧ i &&& b1 = 0 ∧ i &&& b2 ≠ 0 then
    state (andNot (i ||| b1) b2)
  else if i &&& b1 ≠ 0 ∧ i &&& b2 = 0 ∧
      ((andNot i b1) ||| b2) &&& ctrlBit ≠ 0 then
    state ((andNot i b1) ||| b2)
  else state i

/-- Second loop of `applyControlledSwap` (lines 161-184), with the
`processed` markers: a pair `{i, i ^ b1 ^ b2}` of indices whose target
bits differ is swapped exactly once, namely when the first unprocessed
member reached by the ascending loop passes the control test — so the
pair is swapped iff either member has the control bit set.  (Both members
agree on whether the target bits differ, since the partner flips both.) -/
def cswapPassTwo (state : Nat → ℝ × ℝ) (control t1 t2 : Nat) :
    Nat → ℝ × ℝ := fun i =>
  let ctrlBit := 1 <<< control
  let b1 := 1 <<< t1
  let b2 := 1 <<< t2
  let partner := i ^^^ b1 ^^^ b2
  if (¬ ((i &&& b1 = 0) ↔ (i &&& b2 = 0))) ∧
      (i &&& ctrlBit ≠ 0 ∨ partner &&& ctrlBit ≠ 0) then
    state partner
  else state i

/-- `applyControlledSwap` runs both loops in sequence on the same buffer:
the first (un-reverted, despite its comment) pass, then the
`processed`-marked pass. -/
def applyControlledSwap (state : Nat → ℝ × ℝ)
    (control t1 t2 numQubits : Nat) : Nat → ℝ × ℝ :=
  cswapPassTwo (cswapPassOne state control t1 t2) control t1 t2

/-- `applyExtraGate`: dispatch on `CP`, `CRZ`, `CSWAP`; any other type
falls through and returns the state as-is. -/
noncomputable def applyExtraGate (state : Nat → ℝ × ℝ) (g : Gate)
    (numQubits : Nat) : Nat → ℝ × ℝ :=
  if g.type = "CP" then
    applyControlledPhase state (g.controls.getD 0 0) (g.targets.getD 0 0)
      (g.phi.getD 0)
  else if g.type = "CRZ" then
    applyControlledRz state (g.controls.getD 0 0) (g.targets.getD 0 0)
      (g.theta.getD 0)
  else if g.type = "CSWAP" then
    applyControlledSwap state (g.controls.getD 0 0) (g.targets.getD 0 0)
      (g.targets.getD 1 0) numQubits
  else state

/-! ### Column application (`_applyColumnGates`) -/

/-- The per-gate dispatch inside `_applyColumnGates`: SWAP, then the
controlled pair, then rotations, then the `GATE_MATRICES` lookup, and
finally `applyExtraGate` for everything the lookup misses. -/
noncomputable def applyGateInColumn (state : Nat → ℝ × ℝ) (g : Gate)
    (numQubits : Nat) : Nat → ℝ × ℝ :=
  if g.type = "SWAP" then
    applySWAP state (g.targets.getD 0 0) (g.targets.getD 1 0) numQubits
  else if g.type = "CX" ∨ g.type = "CNOT" ∨ g.type = "CZ" then
    applyControlledGate state g numQubits
  else if g.type = "Rx" ∨ g.type = "Ry" ∨ g.type = "Rz" then
    applyRotationGate state g numQubits
  else
    match gateMatrix g.type with
    | some m => applySingleGate state m (g.targets.getD 0 0)
    | none => applyExtraGate state g numQubits

/-- `_applyColumnGates`: clone the state (value semantics here) and apply
each gate of the column in order. -/
noncomputable def applyColumnGates (state : Nat → ℝ × ℝ)
    (gates : List Gate) (numQubits : Nat) : Nat → ℝ × ℝ :=
  gates.foldl (fun st g => applyGateInColumn st g numQubits) state

/-! ### Measurement processing (`_processMeasurements`) -/

/-- The full basis distribution `|amplitude_i|^2` for `i < 2^n`, the
values of the source's `fullStateProbs` object (keyed by index here; the
binary label keying is a bijection on this range). -/
def fullProbs (state : Nat → ℝ × ℝ) (n : Nat) : List ℝ :=
  (List.range (2 ^ n)).map fun i => cAbs2 (state i)

/-- `checkMask`: `measuredIndices.reduce((acc, q) => acc | (1 << q), 0)`. -/
def measuredMask (qs : List Nat) : Nat :=
  qs.foldl (fun acc q => acc ||| (1 <<< q)) 0

/-- The projection step of the shot-mode collapse: keep the amplitude of
every basis index that agrees with `bits` on the `mask` positions, zero
out the rest. -/
def projectedState (state : Nat → ℝ × ℝ) (mask bits : Nat) :
    Nat → ℝ × ℝ := fun i =>
  if i &&& mask = bits then state i else (0, 0)

/-- `keptNormSq`: the squared norm retained by the projection, summed by
the source's collapse loop over all basis indices. -/
def keptNormSq (state : Nat → ℝ × ℝ) (n mask bits : Nat) : ℝ :=
  ∑ i in Finset.range (2 ^ n), if i &&& mask = bits then cAbs2 (state i) else 0

/-- `scale = 1 / Math.sqrt(keptNormSq || 1)`: the divide-by-zero guard
replaces a (falsy) zero retained norm by 1. -/
noncomputable def shotScale (kept : ℝ) : ℝ :=
  1 / Real.sqrt (if kept = 0 then 1 else kept)

/-- The complete shot-mode collapse for a drawn `r`: sample a global
outcome from the full distribution, project onto the subspace agreeing
with the outcome on the measured bits, and scale every amplitude by
`shotScale`. -/
noncomputable def collapsedShotState (state : Nat → ℝ × ℝ) (n : Nat)
    (measuredIndices : List Nat) (r : ℝ) : Nat → ℝ × ℝ :=
  let outcome := sampleOutcome (fullProbs state n) r
  let mask := measuredMask measuredIndices
  let bits := outcome &&& mask
  let scale := shotScale (keptNormSq state n mask bits)
  fun i =>
    ((projectedState state mask bits i).1 * scale,
     (projectedState state mask bits i).2 * scale)

/-- Result record of `_processMeasurements`: the full distribution, the
measured qubit indices, and (shot mode only) the collapsed state. -/
structure MeasResult where
  probabilities : List ℝ
  measuredIndices : List Nat
  nextState : Option (Nat → ℝ × ℝ)

/-- `_processMeasurements`: compute the full distribution; in probability
mode return it with `nextState: null` and no RNG consumption; otherwise
draw `r`, sample, project and renormalize.  The mutable RNG is threaded
explicitly. -/
noncomputable def processMeasurements (state : Nat → ℝ × ℝ)
    (measures : List Gate) (n : Nat) (measureMode : String)
    (rng : SeededRNG) : MeasResult × SeededRNG :=
  let measuredIndices := measures.map fun g => g.targets.getD 0 0
  let probs := fullProbs state n
  if measureMode = "probability" then
    (⟨probs, measuredIndices, none⟩, rng)
  else
    let rr := rngNext rng
    (⟨probs, measuredIndices,
      some (collapsedShotState state n measuredIndices ((rr.1 : ℚ) : ℝ))⟩,
     rr.2)

/-! ### Full simulation (`QuantumEngine.simulate`) -/

/-- The measurement summary stored in a history step: the source pushes
`{probabilities, outcomes, measuredIndices}` where `outcomes` is always
`undefined` (never produced by `_processMeasurements`), so only the two
populated fields are modelled. -/
structure StepSummary where
  probabilities : List ℝ
  measuredIndices : List Nat

/-- `class SimulationStep` (col is `-1` for the initial snapshot). -/
structure SimStep where
  col : Int
  stateVector : Nat → ℝ × ℝ
  appliedGates : List Gate
  summary : Option StepSummary

/-- The unitary part of one simulate-loop iteration: apply the column's
non-Measure gates (skipped when there are none, which is the same
state). -/
noncomputable def columnUnitaryStep (c : Circuit) (state : Nat → ℝ × ℝ)
    (col : Nat) : Nat → ℝ × ℝ :=
  let unitaries := (c.getGatesAtCol col).filter fun g => g.type ≠ "Measure"
  if 0 < unitaries.length then applyColumnGates state unitaries c.numQubits
  else state

/-- The column loop of `simulate`, over the remaining column indices:
apply unitaries, process measurements when present, collapse the carried
state only when the mode is `shot` and a `nextState` was produced, and
emit one step per column. -/
noncomputable def simAux (c : Circuit) (measureMode : String) :
    List Nat → (Nat → ℝ × ℝ) → SeededRNG → List SimStep
  | [], _, _ => []
  | col :: rest, state, rng =>
    let gates := c.getGatesAtCol col
    let measures := gates.filter fun g => g.type = "Measure"
    let state1 := columnUnitaryStep c state col
    if 0 < measures.length then
      let pr := processMeasurements state1 measures c.numQubits measureMode rng
      let state2 :=
        match pr.1.nextState with
        | some ns => if measureMode = "shot" then ns else state1
        | none => state1
      ⟨(col : Int), state2, gates,
        some ⟨pr.1.probabilities, pr.1.measuredIndices⟩⟩ ::
        simAux c measureMode rest state2 pr.2
    else
      ⟨(col : Int), state1, gates, none⟩ :: simAux c measureMode rest state1 rng

/-- `QuantumEngine.simulate`: initial snapshot at column `-1`, then the
column loop.  The source seeds its RNG from `Math.random()`; that
non-reproducible generator is the explicit `rng0` parameter here. -/
noncomputable def simulate (c : Circuit) (input : Nat → ℝ × ℝ)
    (measureMode : String) (rng0 : SeededRNG) : List SimStep :=
  ⟨(-1 : Int), input, [], none⟩ ::
    simAux c measureMode (List.range c.numCols) input rng0

/-- The state vectors of a step history, in order. -/
def statesOf (steps : List SimStep) : List (Nat → ℝ × ℝ) :=
  steps.map fun s => s.stateVector

/-- Reference trajectory for the spec's "unitary-only" wording: the state
after folding the unitary part of columns `0..k-1`, built from the
engine's own column step. -/
noncomputable def unitaryStateAt (c : Circuit) (input : Nat → ℝ × ℝ)
    (k : Nat) : Nat → ℝ × ℝ :=
  (List.range k).foldl (fun st col => columnUnitaryStep c st col) input

/-- Squared L2 norm of a state vector on the `2^n` basis indices. -/
def normSq (state : Nat → ℝ × ℝ) (n : Nat) : ℝ :=
  ∑ i in Finset.range (2 ^ n), cAbs2 (state i)

/-! ### Shot sampler (`QuantumEngine.runShots`) -/

/-- `outcome.toString(2).padStart(numQubits, '0')`: the binary label of a
basis index, most significant of the `n` bits first (`padStart` for
`i < 2^n`, where the two agree). -/
def binString (n i : Nat) : String :=
  String.mk (((List.range n).reverse).map fun k =>
    if i.testBit k then '1' else '0')

/-- `counts[bin] = (counts[bin] || 0) + 1` on a total count map (absent
keys read as 0). -/
def bumpCount (counts : String → Nat) (lbl : String) : String → Nat :=
  fun l => if l = lbl then counts l + 1 else counts l

/-- The shot loop of `runShots`: remaining shot count, accumulated counts
and the threaded sampling RNG; each iteration draws `r`, walks the
cumulative distribution (the same loop as the shot-mode measurement,
embedded once as `sampleOutcome`) and bumps the outcome's label. -/
noncomputable def runShotsLoop (n : Nat) (probs : List ℝ) :
    Nat → (String → Nat) → SeededRNG → (String → Nat)
  | 0, counts, _ => counts
  | Nat.succ k, counts, rng =>
    let rr := rngNext rng
    let outcome := sampleOutcome probs ((rr.1 : ℚ) : ℝ)
    runShotsLoop n probs k (bumpCount counts (binString n outcome)) rr.2

/-- `QuantumEngine.runShots`: simulate in probability mode, read the last
step's state (`steps[steps.length - 1]`), build the basis distribution
and sample `shots` outcomes with a fresh generator seeded from
`this.seed` — the engine field is the explicit `engineSeed` parameter.
`measRng` is the `Math.random()`-seeded generator `simulate` creates
internally. -/
noncomputable def runShots (c : Circuit) (input : Nat → ℝ × ℝ)
    (shots engineSeed : Nat) (measRng : SeededRNG) : String → Nat :=
  let steps := simulate c input "probability" measRng
  let finalState :=
    (steps.getD (steps.length - 1) ⟨(-1 : Int), input, [], none⟩).stateVector
  let probs := fullProbs finalState c.numQubits
  runShotsLoop c.numQubits probs shots (fun _ => 0) (mkRNG engineSeed)

/-- Reference list of sampled outcomes for `shots` draws of the stream
seeded with `seed`, applied to a fixed distribution. -/
noncomputable def shotOutcomesList (probs : List ℝ) (shots seed : Nat) :
    List Nat :=
  (List.range shots).map fun s => sampleOutcome probs ((rngStream seed s : ℚ) : ℝ)

/-- Outcomes of `k` successive draws starting from an arbitrary generator
state (the generalisation of `shotOutcomesList` used to reason about the
shot loop). -/
noncomputable def outcomesFromRng (probs : List ℝ) (rng : SeededRNG)
    (k : Nat) : List Nat :=
  (List.range k).map fun s =>
    sampleOutcome probs (((rngNext (rngNextSt^[s] rng)).1 : ℚ) : ℝ)

/-! ### Concrete inputs used by counterexamples and witnesses -/

/-- The basis state with amplitude 1 at index 0. -/
noncomputable def zeroKet : Nat → ℝ × ℝ := fun i =>
  if i = 0 then (1, 0) else (0, 0)

/-- The all-zero (degenerate, unnormalized) vector. -/
def nullVec : Nat → ℝ × ℝ := fun _ => (0, 0)

/-- A gate whose type string is outside the engine's vocabulary. -/
def fooGate : Gate := ⟨"FOO", [0], [], none, none, 0⟩

/-- An `Rx` gate with no `theta` parameter. -/
def rxNoTheta : Gate := ⟨"Rx", [0], [], none, none, 0⟩

/-- A plain uncontrolled `CX` gate record (empty control list). -/
def cxNoControls : Gate := ⟨"CX", [1], [], none, none, 0⟩

/-- A plain uncontrolled `CZ` gate record (empty control list). -/
def czNoControls : Gate := ⟨"CZ", [1], [], none, none, 0⟩

/-- An empty 2-qubit circuit. -/
def emptyCircuit : Circuit := ⟨2, 6, []⟩

/-- A ramp state with distinct rational amplitudes, for witnesses. -/
def rampState : Nat → ℝ × ℝ := fun i => ((i : ℝ), (i : ℝ) + 1)

/-! ### Bit-manipulation helper lemmas -/

theorem testBit_one_shiftLeft (q k : Nat) :
    (1 <<< q).testBit k = decide (q = k) := by
  rw [Nat.one_shiftLeft]
  exact Nat.testBit_two_pow

theorem land_shift_eq_zero_iff (i q : Nat) :
    i &&& (1 <<< q) = 0 ↔ i.testBit q = false := by
  rw [Nat.one_shiftLeft, Nat.and_two_pow]
  cases h : i.testBit q <;> simp [h]

theorem testBit_andNot (a b k : Nat) :
    (andNot a b).testBit k = (a.testBit k && !(b.testBit k)) := by
  unfold andNot
  rw [Nat.testBit_xor, Nat.testBit_land]
  cases a.testBit k <;> cases b.testBit k <;> rfl

theorem lor_shift_of_bit_false {i q : Nat} (h : i.testBit q = false) :
    i ||| (1 <<< q) = i ^^^ (1 <<< q) := by
  apply Nat.eq_of_testBit_eq
  intro k
  rw [Nat.testBit_lor, Nat.testBit_xor, testBit_one_shiftLeft]
  by_cases hk : q = k
  · subst hk; rw [h]; simp
  · simp [hk]

theorem andNot_shift_of_bit_true {i q : Nat} (h : i.testBit q = true) :
    andNot i (1 <<< q) = i ^^^ (1 <<< q) := by
  apply Nat.eq_of_testBit_eq
  intro k
  rw [testBit_andNot, Nat.testBit_xor, testBit_one_shiftLeft]
  by_cases hk : q = k
  · subst hk; rw [h]; simp
  · simp [hk]

/-! ### Claim C6: RNG reproducibility and output range -/

theorem rngNext_val_nonneg (r : SeededRNG) : 0 ≤ (rngNext r).1 :=
  div_nonneg (Nat.cast_nonneg _) (by norm_num)

theorem rngNext_val_lt_one (r : SeededRNG) : (rngNext r).1 < 1 := by
  show ((imul (u32 (r.s1 * 5)) 7 : ℚ) / 4294967296) < 1
  rw [div_lt_one (by norm_num)]
  have h : imul (u32 (r.s1 * 5)) 7 < 4294967296 := Nat.mod_lt _ (by norm_num)
  exact_mod_cast h

/-- C6.  Two `SeededRNG` instances constructed with the same seed produce
identical sequences of `next()` values (for every call index, hence in
particular for the first 1000), and every produced value lies in
`[0, 1)`. -/
theorem C6_rng_reproducible_and_in_range (seed k : Nat) (r1 r2 : SeededRNG)
    (h1 : r1 = mkRNG seed) (h2 : r2 = mkRNG seed) :
    rngValueAt r1 k = rngValueAt r2 k ∧
    0 ≤ rngValueAt r1 k ∧ rngValueAt r1 k < 1 := by
  subst h1; subst h2
  exact ⟨rfl, rngNext_val_nonneg _, rngNext_val_lt_one _⟩

theorem C6_rng_reproducible_and_in_range_witness :
    mkRNG 42 = mkRNG 42 ∧
    (rngValueAt (mkRNG 42) 999 = rngValueAt (mkRNG 42) 999 ∧
      0 ≤ rngValueAt (mkRNG 42) 999 ∧ rngValueAt (mkRNG 42) 999 < 1) :=
  ⟨rfl, C6_rng_reproducible_and_in_range 42 999 (mkRNG 42) (mkRNG 42) rfl rfl⟩

/-! ### Claim C2: first-exceeding cumulative sampling -/

theorem sampleAux_first (r : ℝ) :
    ∀ (ps : List ℝ) (cum : ℝ) (idx dflt k : Nat), k < ps.length →
      r < cum + (ps.take (k + 1)).sum →
      (∀ j, j < k → ¬ r < cum + (ps.take (j + 1)).sum) →
      sampleAux r ps cum idx dflt = idx + k := by
  intro ps
  induction ps with
  | nil => intro cum idx dflt k hk; exact absurd hk (by simp)
  | cons p rest ih =>
    intro cum idx dflt k hk hr hmin
    cases k with
    | zero =>
      simp only [List.take_succ_cons, List.take_zero, List.sum_cons,
        List.sum_nil, add_zero] at hr
      simp [sampleAux, if_pos hr]
    | succ k =>
      have h0 : ¬ r < cum + p := by
        have h := hmin 0 (Nat.succ_pos k)
        simpa using h
      simp only [sampleAux, if_neg h0]
      have hk' : k < rest.length := by simpa using hk
      have hr' : r < (cum + p) + (rest.take (k + 1)).sum := by
        simp only [List.take_succ_cons, List.sum_cons] at hr
        linarith
      have hmin' : ∀ j, j < k → ¬ r < (cum + p) + (rest.take (j + 1)).sum := by
        intro j hj
        have h := hmin (j + 1) (by omega)
        simp only [List.take_succ_cons, List.sum_cons] at h
        intro hc
        exact h (by linarith)
      rw [ih (cum + p) (idx + 1) dflt k hk' hr' hmin']
      omega

theorem sampleAux_dflt (r : ℝ) :
    ∀ (ps : List ℝ) (cum : ℝ) (idx dflt : Nat),
      (∀ j, j < ps.length → ¬ r < cum + (ps.take (j + 1)).sum) →
      sampleAux r ps cum idx dflt = dflt := by
  intro ps
  induction ps with
  | nil => intro cum idx dflt _; rfl
  | cons p rest ih =>
    intro cum idx dflt hmin
    have h0 : ¬ r < cum + p := by
      have h := hmin 0 (Nat.succ_pos rest.length)
      simpa using h
    simp only [sampleAux, if_neg h0]
    apply ih
    intro j hj
    have h := hmin (j + 1) (by simp only [List.length_cons]; omega)
    simp only [List.take_succ_cons, List.sum_cons] at h
    intro hc
    exact h (by linarith)

theorem fullProbs_nonneg (state : Nat → ℝ × ℝ) (n : Nat) :
    ∀ p ∈ fullProbs state n, 0 ≤ p := by
  intro p hp
  obtain ⟨i, _, hi⟩ := List.mem_map.mp hp
  subst hi
  exact add_nonneg (mul_self_nonneg _) (mul_self_nonneg _)

theorem fullProbs_length (state : Nat → ℝ × ℝ) (n : Nat) :
    (fullProbs state n).length = 2 ^ n := by
  simp [fullProbs]

/-- C2.  The sampled outcome — for the basis distribution used both by
shot-mode measurement and by shot sampling — is the first index in
increasing basis order whose cumulative probability strictly exceeds the
draw `r`; and when `r` is at least the total probability the walk falls
through and the default `2^n - 1` is returned. -/
theorem C2_first_exceeding_sampling (state : Nat → ℝ × ℝ) (n : Nat)
    (r : ℝ) (i0 : Nat) :
    (i0 < 2 ^ n → r < cumulProb (fullProbs state n) i0 →
      (∀ j, j < i0 → ¬ r < cumulProb (fullProbs state n) j) →
      sampleOutcome (fullProbs state n) r = i0) ∧
    ((fullProbs state n).sum ≤ r →
      sampleOutcome (fullProbs state n) r = 2 ^ n - 1) := by
  constructor
  · intro hlen hr hmin
    unfold sampleOutcome
    rw [sampleAux_first r (fullProbs state n) 0 0 ((fullProbs state n).length - 1)
      i0 (by rw [fullProbs_length]; exact hlen)
      (by rw [zero_add]; exact hr)
      (by intro j hj; rw [zero_add]; exact hmin j hj)]
    omega
  · intro hr
    unfold sampleOutcome
    rw [sampleAux_dflt r (fullProbs state n) 0 0 ((fullProbs state n).length - 1)]
    · rw [fullProbs_length]
    · intro j _
      rw [zero_add, not_lt]
      calc ((fullProbs state n).take (j + 1)).sum
          ≤ (fullProbs state n).sum := by
            apply List.Sublist.sum_le_sum (List.take_sublist _ _)
            exact fullProbs_nonneg state n
        _ ≤ r := hr

theorem C2_first_exceeding_sampling_witness :
    0 < 2 ^ 1 ∧ (1 / 2 : ℝ) < cumulProb (fullProbs zeroKet 1) 0 ∧
    sampleOutcome (fullProbs zeroKet 1) (1 / 2) = 0 := by
  have h1 : (0 : Nat) < 2 ^ 1 := by norm_num
  have h2 : (1 / 2 : ℝ) < cumulProb (fullProbs zeroKet 1) 0 := by
    norm_num [cumulProb, fullProbs, zeroKet, cAbs2, List.range_succ]
  exact ⟨h1, h2, (C2_first_exceeding_sampling zeroKet 1 (1 / 2) 0).1 h1 h2
    (fun j hj => absurd hj (Nat.not_lt_zero j))⟩

/-! ### Claim C10: controlled gates with an empty control set -/

theorem land_shift_ne_zero_iff (i q : Nat) :
    ¬ i &&& (1 <<< q) = 0 ↔ i.testBit q = true := by
  rw [land_shift_eq_zero_iff]
  cases i.testBit q <;> simp

/-- C10.  With an empty (or absent) control list the control mask is 0,
which every index satisfies, so `_applyControlledGate` acts as the
unconditional X — every amplitude is read from the index with the target
bit flipped — for CX/CNOT, and as the unconditional Z — negating exactly
the amplitudes whose target bit is 1 — for CZ. -/
theorem C10_empty_controls_is_uncontrolled (state : Nat → ℝ × ℝ)
    (g : Gate) (n i target : Nat) (hctl : g.controls = [])
    (htgt : g.targets.getD 0 0 = target) :
    ((g.type = "CX" ∨ g.type = "CNOT") →
      applyControlledGate state g n i = state (i ^^^ (1 <<< target))) ∧
    (g.type = "CZ" →
      applyControlledGate state g n i =
        if i.testBit target then (-(state i).1, -(state i).2) else state i) := by
  have hmask : g.controls.foldl (fun acc c => acc ||| (1 <<< c)) 0 = 0 := by
    rw [hctl]; rfl
  constructor
  · intro hty
    simp only [applyControlledGate, hmask, htgt, if_pos hty, Nat.and_zero]
    by_cases hb : i &&& (1 <<< target) = 0
    · rw [if_pos ⟨trivial, hb⟩,
        lor_shift_of_bit_false ((land_shift_eq_zero_iff i target).mp hb)]
    · rw [if_neg (fun hc => hb hc.2), if_pos ⟨hb, trivial⟩,
        andNot_shift_of_bit_true ((land_shift_ne_zero_iff i target).mp hb)]
  · intro hty
    have hcx : ¬ (g.type = "CX" ∨ g.type = "CNOT") := by
      rw [hty]; decide
    simp only [applyControlledGate, hmask, htgt, if_neg hcx, if_pos hty,
      Nat.and_zero]
    by_cases hb : i &&& (1 <<< target) = 0
    · rw [if_neg (fun hc => hc.1 hb),
        if_neg (by rw [(land_shift_eq_zero_iff i target).mp hb]; exact
          Bool.false_ne_true)]
    · rw [if_pos ⟨hb, trivial⟩, if_pos ((land_shift_ne_zero_iff i target).mp hb)]

theorem C10_empty_controls_is_uncontrolled_witness :
    cxNoControls.controls = [] ∧ czNoControls.controls = [] ∧
    (cxNoControls.type = "CX" ∨ cxNoControls.type = "CNOT") ∧
    czNoControls.type = "CZ" ∧
    applyControlledGate rampState cxNoControls 2 0 =
      rampState (0 ^^^ (1 <<< 1)) ∧
    applyControlledGate rampState czNoControls 2 3 =
      (if Nat.testBit 3 1 then (-(rampState 3).1, -(rampState 3).2)
        else rampState 3) :=
  ⟨rfl, rfl, Or.inl rfl, rfl,
    (C10_empty_controls_is_uncontrolled rampState cxNoControls 2 0 1
      rfl rfl).1 (Or.inl rfl),
    (C10_empty_controls_is_uncontrolled rampState czNoControls 2 3 1
      rfl rfl).2 rfl⟩

/-! ### Claim C3: unrecognized gate types (corrected) -/

/-- The whole gate-type vocabulary the column dispatcher recognizes. -/
def knownGateTypes : List String :=
  ["SWAP", "CX", "CNOT", "CZ", "Rx", "Ry", "Rz",
   "I", "X", "Y", "Z", "H", "S", "T", "CP", "CRZ", "CSWAP"]

theorem gateMatrix_unknown {ty : String} (h1 : ty ≠ "I") (h2 : ty ≠ "X")
    (h3 : ty ≠ "Y") (h4 : ty ≠ "Z") (h5 : ty ≠ "H") (h6 : ty ≠ "S")
    (h7 : ty ≠ "T") : gateMatrix ty = none := by
  unfold gateMatrix
  rw [if_neg h1, if_neg h2, if_neg h3, if_neg h4, if_neg h5, if_neg h6,
    if_neg h7]

theorem applyGateInColumn_unknown {g : Gate} (n : Nat)
    (hty : g.type ∉ knownGateTypes) :
    ∀ st : Nat → ℝ × ℝ, applyGateInColumn st g n = st := by
  intro st
  simp only [knownGateTypes, List.mem_cons, List.not_mem_nil, or_false,
    not_or] at hty
  obtain ⟨hSW, hCX, hCN, hCZ, hRx, hRy, hRz, hI, hX, hY, hZ, hH, hS, hT,
    hCP, hCR, hCS⟩ := hty
  unfold applyGateInColumn
  rw [if_neg hSW, if_neg (by simp [hCX, hCN, hCZ]),
    if_neg (by simp [hRx, hRy, hRz]),
    gateMatrix_unknown hI hX hY hZ hH hS hT]
  unfold applyExtraGate
  rw [if_neg hCP, if_neg hCR, if_neg hCS]

/-- C3 counterexample: a column containing the unrecognized gate type
`"FOO"` is applied without any error and returns the state unchanged —
the claimed loud failure does not happen. -/
theorem C3_unknown_gate_counterexample :
    applyColumnGates rampState [fooGate] 1 = rampState := by
  show applyGateInColumn rampState fooGate 1 = rampState
  exact applyGateInColumn_unknown 1 (by decide) rampState

/-- C3 (amended).  Applying a column containing a gate whose type is
outside the recognized vocabulary silently skips that gate — the column
result is exactly the result of the column without it (`applyExtraGate`
falls through and returns the state as-is; no error is raised). -/
theorem C3_unknown_gate_is_silent_noop (state : Nat → ℝ × ℝ) (n : Nat)
    (gs1 gs2 : List Gate) (g : Gate) (hty : g.type ∉ knownGateTypes) :
    applyColumnGates state (gs1 ++ g :: gs2) n =
      applyColumnGates state (gs1 ++ gs2) n := by
  unfold applyColumnGates
  rw [List.foldl_append, List.foldl_append, List.foldl_cons,
    applyGateInColumn_unknown n hty]

theorem C3_unknown_gate_is_silent_noop_witness :
    fooGate.type ∉ knownGateTypes ∧
    applyColumnGates zeroKet ([] ++ fooGate :: []) 1 =
      applyColumnGates zeroKet ([] ++ []) 1 :=
  ⟨by decide, C3_unknown_gate_is_silent_noop zeroKet 1 [] [] fooGate
    (by decide)⟩

/-! ### Claim C9: missing rotation angle (corrected) -/

theorem rotationGateMatrix_Rx_zero :
    rotationGateMatrix "Rx" 0 = ⟨(1, 0), (0, 0), (0, 0), (1, 0)⟩ := by
  unfold rotationGateMatrix
  rw [if_pos rfl]
  norm_num

theorem applySingleGate_identity (st : Nat → ℝ × ℝ) (t : Nat) :
    applySingleGate st ⟨(1, 0), (0, 0), (0, 0), (1, 0)⟩ t = st := by
  funext i
  unfold applySingleGate cAdd cMul
  by_cases h : i &&& (1 <<< t) = 0 <;>
    simp only [h, if_pos, if_neg, ite_true, ite_false, reduceIte] <;>
    · simp only [Prod.ext_iff]
      constructor <;> ring

/-- C9 counterexample: the engine's rotation handler, given an `Rx` gate
with no `theta` at all, raises nothing — it silently substitutes 0
(`theta || 0`) and applies `Rx(0) = I`, returning the state unchanged. -/
theorem C9_missing_theta_counterexample :
    applyRotationGate zeroKet rxNoTheta 1 = zeroKet := by
  show applySingleGate zeroKet (rotationGateMatrix "Rx"
    ((none : Option ℝ).getD 0)) 0 = zeroKet
  rw [show ((none : Option ℝ).getD 0) = 0 from rfl, rotationGateMatrix_Rx_zero]
  exact applySingleGate_identity zeroKet 0

/-- C9 (amended).  The loud failure for a rotation gate with an absent or
NaN angle lives in the circuit model: `Circuit._validate` (run by
`addGate`, once range and collision checks pass) raises the
theta-parameter error.  The engine itself does not fail: its
`_applyRotationGate` silently substitutes angle 0 (`theta || 0`) and
proceeds. -/
theorem C9_missing_theta_model_validates_engine_defaults (c : Circuit)
    (g : Gate) (state : Nat → ℝ × ℝ) (n : Nat)
    (hty : GATE_HAS_PARAM g.type) (hth : g.theta = none)
    (hrange : ∀ q ∈ g.controls ++ g.targets, q < c.numQubits)
    (hcol : ∀ eg ∈ c.getGatesAtCol g.col, ∀ q ∈ g.controls ++ g.targets,
      q ∉ eg.controls ++ eg.targets) :
    validateGate c g = Except.error "Gate requires theta parameter" ∧
    applyRotationGate state g n =
      applyRotationGate state { g with theta := some 0 } n := by
  constructor
  · have hA : ((g.controls ++ g.targets).any
        fun q => decide (c.numQubits ≤ q)) = false := by
      rw [List.any_eq_false]
      intro q hq
      simpa using Nat.not_le.mpr (hrange q hq)
    have hB : ((c.getGatesAtCol g.col).any
        (fun eg => (g.controls ++ g.targets).any
          fun q => (eg.controls ++ eg.targets).contains q)) = false := by
      rw [List.any_eq_false]
      intro eg heg
      rw [Bool.not_eq_true, List.any_eq_false]
      intro q hq
      simpa using hcol eg heg q hq
    unfold validateGate
    rw [if_neg (by rw [hA]; exact Bool.false_ne_true),
      if_neg (by rw [hB]; exact Bool.false_ne_true),
      if_pos ⟨hty, by rw [hth]; rfl⟩]
  · unfold applyRotationGate
    rw [hth]
    rfl

theorem C9_missing_theta_model_validates_engine_defaults_witness :
    GATE_HAS_PARAM rxNoTheta.type ∧ rxNoTheta.theta = none ∧
    validateGate emptyCircuit rxNoTheta =
      Except.error "Gate requires theta parameter" := by
  have hrange : ∀ q ∈ rxNoTheta.controls ++ rxNoTheta.targets,
      q < emptyCircuit.numQubits := by decide
  have hcol : ∀ eg ∈ emptyCircuit.getGatesAtCol rxNoTheta.col,
      ∀ q ∈ rxNoTheta.controls ++ rxNoTheta.targets,
        q ∉ eg.controls ++ eg.targets := by
    intro eg heg
    simp [Circuit.getGatesAtCol, emptyCircuit] at heg
  exact ⟨Or.inl rfl, rfl,
    (C9_missing_theta_model_validates_engine_defaults emptyCircuit rxNoTheta
      rampState 1 (Or.inl rfl) rfl hrange hcol).1⟩

/-! ### Claim C5: SWAP and CSWAP involutions -/

theorem not_eq_false_iff (b : Bool) : ¬ b = false ↔ b = true := by
  cases b <;> simp

theorem applySWAP_apply (state : Nat → ℝ × ℝ) (q1 q2 n i : Nat) :
    applySWAP state q1 q2 n i =
      if i.testBit q1 = false ∧ i.testBit q2 = true then
        state (andNot (i ||| 1 <<< q1) (1 <<< q2))
      else if i.testBit q1 = true ∧ i.testBit q2 = false then
        state ((andNot i (1 <<< q1)) ||| 1 <<< q2)
      else state i := by
  unfold applySWAP
  simp only [ne_eq, land_shift_eq_zero_iff, not_eq_false_iff]

theorem partner_roundtrip₁ {i q1 q2 : Nat} (hne : q1 ≠ q2)
    (h1 : i.testBit q1 = false) (h2 : i.testBit q2 = true) :
    (andNot (andNot (i ||| 1 <<< q1) (1 <<< q2)) (1 <<< q1)) ||| 1 <<< q2
      = i := by
  apply Nat.eq_of_testBit_eq
  intro k
  simp only [Nat.testBit_lor, testBit_andNot, testBit_one_shiftLeft]
  by_cases hk1 : q1 = k
  · subst hk1; simp [h1, Ne.symm hne]
  · by_cases hk2 : q2 = k
    · subst hk2; simp [h2, hne]
    · simp [hk1, hk2]

theorem partner_roundtrip₂ {i q1 q2 : Nat} (hne : q1 ≠ q2)
    (h1 : i.testBit q1 = true) (h2 : i.testBit q2 = false) :
    andNot (((andNot i (1 <<< q1)) ||| 1 <<< q2) ||| 1 <<< q1) (1 <<< q2)
      = i := by
  apply Nat.eq_of_testBit_eq
  intro k
  simp only [Nat.testBit_lor, testBit_andNot, testBit_one_shiftLeft]
  by_cases hk1 : q1 = k
  · subst hk1; simp [h1, Ne.symm hne]
  · by_cases hk2 : q2 = k
    · subst hk2; simp [h2, hne]
    · simp [hk1, hk2]

theorem applySWAP_twice (state : Nat → ℝ × ℝ) (q1 q2 n : Nat)
    (hne : q1 ≠ q2) :
    applySWAP (applySWAP state q1 q2 n) q1 q2 n = state := by
  have hne' : q2 ≠ q1 := Ne.symm hne
  funext i
  simp only [applySWAP_apply]
  have hj1 : (andNot (i ||| 1 <<< q1) (1 <<< q2)).testBit q1 = true := by
    simp only [testBit_andNot, Nat.testBit_lor, testBit_one_shiftLeft]
    simp [hne']
  have hj2 : (andNot (i ||| 1 <<< q1) (1 <<< q2)).testBit q2 = false := by
    simp only [testBit_andNot, Nat.testBit_lor, testBit_one_shiftLeft]
    simp
  have hk1 : ((andNot i (1 <<< q1)) ||| 1 <<< q2).testBit q1 = false := by
    simp only [Nat.testBit_lor, testBit_andNot, testBit_one_shiftLeft]
    simp [hne']
  have hk2 : ((andNot i (1 <<< q1)) ||| 1 <<< q2).testBit q2 = true := by
    simp only [Nat.testBit_lor, testBit_andNot, testBit_one_shiftLeft]
    simp
  cases h1 : i.testBit q1 <;> cases h2 : i.testBit q2
  · rw [if_neg (by simp), if_neg (by simp), if_neg (by simp),
      if_neg (by simp)]
  · rw [if_pos ⟨rfl, rfl⟩,
      if_neg (fun hc => by rw [hj1] at hc; simp at hc),
      if_pos ⟨hj1, hj2⟩, partner_roundtrip₁ hne h1 h2]
  · rw [if_neg (by simp), if_pos ⟨rfl, rfl⟩, if_pos ⟨hk1, hk2⟩,
      partner_roundtrip₂ hne h1 h2]
  · rw [if_neg (by simp), if_neg (by simp), if_neg (by simp),
      if_neg (by simp)]

theorem cswapPassOne_apply (state : Nat → ℝ × ℝ) (control t1 t2 i : Nat) :
    cswapPassOne state control t1 t2 i =
      if i.testBit control = true ∧ i.testBit t1 = false ∧
          i.testBit t2 = true then
        state (andNot (i ||| 1 <<< t1) (1 <<< t2))
      else if i.testBit t1 = true ∧ i.testBit t2 = false ∧
          ((andNot i (1 <<< t1)) ||| 1 <<< t2).testBit control = true then
        state ((andNot i (1 <<< t1)) ||| 1 <<< t2)
      else state i := by
  unfold cswapPassOne
  simp only [ne_eq, land_shift_eq_zero_iff, not_eq_false_iff]

theorem cswapPassTwo_apply (state : Nat → ℝ × ℝ) (control t1 t2 i : Nat) :
    cswapPassTwo state control t1 t2 i =
      if (¬ (i.testBit t1 = false ↔ i.testBit t2 = false)) ∧
          (i.testBit control = true ∨
            (i ^^^ 1 <<< t1 ^^^ 1 <<< t2).testBit control = true) then
        state (i ^^^ 1 <<< t1 ^^^ 1 <<< t2)
      else state i := by
  unfold cswapPassTwo
  simp only [ne_eq, land_shift_eq_zero_iff, not_eq_false_iff]

theorem cswap_idx₁ {i t1 t2 : Nat} (h3 : t1 ≠ t2)
    (ha : i.testBit t1 = true) (hb : i.testBit t2 = false) :
    andNot ((i ^^^ 1 <<< t1 ^^^ 1 <<< t2) ||| 1 <<< t1) (1 <<< t2) = i := by
  apply Nat.eq_of_testBit_eq
  intro k
  simp only [Nat.testBit_lor, Nat.testBit_xor, testBit_andNot,
    testBit_one_shiftLeft]
  by_cases hk1 : t1 = k
  · subst hk1; simp [ha, Ne.symm h3]
  · by_cases hk2 : t2 = k
    · subst hk2; simp [hb, h3]
    · simp [hk1, hk2]

theorem cswap_idx₂ {i t1 t2 : Nat} (h3 : t1 ≠ t2)
    (ha : i.testBit t1 = false) (hb : i.testBit t2 = true) :
    (andNot (i ^^^ 1 <<< t1 ^^^ 1 <<< t2) (1 <<< t1)) ||| 1 <<< t2 = i := by
  apply Nat.eq_of_testBit_eq
  intro k
  simp only [Nat.testBit_lor, Nat.testBit_xor, testBit_andNot,
    testBit_one_shiftLeft]
  by_cases hk1 : t1 = k
  · subst hk1; simp [ha, Ne.symm h3]
  · by_cases hk2 : t2 = k
    · subst hk2; simp [hb, h3]
    · simp [hk1, hk2]

/-- The code's `applyControlledSwap` is extensionally the identity: its
first loop already swaps each differing pair once (the in-source comment
claiming it undoes itself is wrong), and the second, `processed`-marked
loop swaps every pair a second time, restoring the input. -/
theorem cswap_is_identity (state : Nat → ℝ × ℝ) (control t1 t2 n : Nat)
    (hc1 : control ≠ t1) (hc2 : control ≠ t2) (h3 : t1 ≠ t2) :
    applyControlledSwap state control t1 t2 n = state := by
  funext i
  show cswapPassTwo (cswapPassOne state control t1 t2) control t1 t2 i
    = state i
  rw [cswapPassTwo_apply]
  have hpc : (i ^^^ 1 <<< t1 ^^^ 1 <<< t2).testBit control
      = i.testBit control := by
    simp only [Nat.testBit_xor, testBit_one_shiftLeft]
    simp [Ne.symm hc1, Ne.symm hc2]
  have hp1 : (i ^^^ 1 <<< t1 ^^^ 1 <<< t2).testBit t1
      = !(i.testBit t1) := by
    simp only [Nat.testBit_xor, testBit_one_shiftLeft]
    simp [Ne.symm h3]
  have hp2 : (i ^^^ 1 <<< t1 ^^^ 1 <<< t2).testBit t2
      = !(i.testBit t2) := by
    simp only [Nat.testBit_xor, testBit_one_shiftLeft]
    simp [h3]
  have hq : ((andNot i (1 <<< t1)) ||| 1 <<< t2).testBit control
      = i.testBit control := by
    simp only [Nat.testBit_lor, testBit_andNot, testBit_one_shiftLeft]
    simp [Ne.symm hc1, Ne.symm hc2]
  by_cases hd : i.testBit t1 = i.testBit t2
  · rw [if_neg (fun hc => hc.1 (by rw [hd]))]
    rw [cswapPassOne_apply]
    rw [if_neg (fun hc => by rw [hc.2.1, hc.2.2] at hd; simp at hd),
      if_neg (fun hc => by rw [hc.1, hc.2.1] at hd; simp at hd)]
  · by_cases hctl : i.testBit control = true
    · have hdiff : ¬ (i.testBit t1 = false ↔ i.testBit t2 = false) := by
        intro hiff
        cases ha : i.testBit t1 <;> cases hb : i.testBit t2
        · rw [ha, hb] at hd; exact hd rfl
        · rw [ha, hb] at hiff; simp at hiff
        · rw [ha, hb] at hiff; simp at hiff
        · rw [ha, hb] at hd; exact hd rfl
      rw [if_pos ⟨hdiff, Or.inl hctl⟩, cswapPassOne_apply]
      cases ha : i.testBit t1 <;> cases hb : i.testBit t2
      · rw [ha, hb] at hd; exact absurd rfl hd
      · have hpa : (i ^^^ 1 <<< t1 ^^^ 1 <<< t2).testBit t1 = true := by
          rw [hp1, ha]; rfl
        have hpb : (i ^^^ 1 <<< t1 ^^^ 1 <<< t2).testBit t2 = false := by
          rw [hp2, hb]; rfl
        rw [if_neg (fun hc => by rw [hpa] at hc; simp at hc),
          if_pos ⟨hpa, hpb, by rw [cswap_idx₂ h3 ha hb]; exact hctl⟩,
          cswap_idx₂ h3 ha hb]
      · have hpa : (i ^^^ 1 <<< t1 ^^^ 1 <<< t2).testBit t1 = false := by
          rw [hp1, ha]; rfl
        have hpb : (i ^^^ 1 <<< t1 ^^^ 1 <<< t2).testBit t2 = true := by
          rw [hp2, hb]; rfl
        rw [if_pos ⟨by rw [hpc]; exact hctl, hpa, hpb⟩,
          cswap_idx₁ h3 ha hb]
      · rw [ha, hb] at hd; exact absurd rfl hd
    · rw [if_neg (fun hc => by
        rcases hc.2 with h | h
        · exact hctl h
        · rw [hpc] at h; exact hctl h)]
      rw [cswapPassOne_apply]
      rw [if_neg (fun hc => hctl hc.1),
        if_neg (fun hc => by rw [hq] at hc; exact hctl hc.2.2)]

/-- C5.  Applying SWAP twice on a pair of distinct qubits restores the
vector exactly, and applying CSWAP twice with the same (pairwise
distinct) control and target qubits restores the vector exactly. -/
theorem C5_swap_cswap_involution (state : Nat → ℝ × ℝ)
    (q1 q2 control t1 t2 n : Nat) (hq : q1 ≠ q2) (ht : t1 ≠ t2)
    (hc1 : control ≠ t1) (hc2 : control ≠ t2) :
    applySWAP (applySWAP state q1 q2 n) q1 q2 n = state ∧
    applyControlledSwap (applyControlledSwap state control t1 t2 n)
      control t1 t2 n = state := by
  refine ⟨applySWAP_twice state q1 q2 n hq, ?_⟩
  rw [cswap_is_identity _ control t1 t2 n hc1 hc2 ht,
    cswap_is_identity _ control t1 t2 n hc1 hc2 ht]

theorem C5_swap_cswap_involution_witness :
    (0 : Nat) ≠ 1 ∧ (2 : Nat) ≠ 0 ∧ (2 : Nat) ≠ 1 ∧
    applySWAP (applySWAP rampState 0 1 3) 0 1 3 = rampState ∧
    applyControlledSwap (applyControlledSwap rampState 2 0 1 3) 2 0 1 3
      = rampState := by
  have h := C5_swap_cswap_involution rampState 0 1 2 0 1 3 (by decide)
    (by decide) (by decide) (by decide)
  exact ⟨by decide, by decide, by decide, h.1, h.2⟩

/-! ### Claim C8: zero retained norm skips renormalization -/

/-- C8.  When the retained squared norm after the projection is zero, the
`|| 1` guard makes the scale `1 / sqrt 1 = 1`, so no division by zero
happens and the returned vector is exactly the projected vector,
unscaled. -/
theorem C8_zero_retained_norm_noop (state : Nat → ℝ × ℝ) (ms : List Nat)
    (n : Nat) (r : ℝ)
    (h : keptNormSq state n (measuredMask ms)
      (sampleOutcome (fullProbs state n) r &&& measuredMask ms) = 0) :
    shotScale (keptNormSq state n (measuredMask ms)
      (sampleOutcome (fullProbs state n) r &&& measuredMask ms)) = 1 ∧
    collapsedShotState state n ms r =
      projectedState state (measuredMask ms)
        (sampleOutcome (fullProbs state n) r &&& measuredMask ms) := by
  have hs : shotScale (keptNormSq state n (measuredMask ms)
      (sampleOutcome (fullProbs state n) r &&& measuredMask ms)) = 1 := by
    unfold shotScale
    rw [if_pos h, Real.sqrt_one]
    norm_num
  refine ⟨hs, ?_⟩
  funext i
  show ((projectedState state (measuredMask ms)
      (sampleOutcome (fullProbs state n) r &&& measuredMask ms) i).1 *
        shotScale (keptNormSq state n (measuredMask ms)
          (sampleOutcome (fullProbs state n) r &&& measuredMask ms)),
    (projectedState state (measuredMask ms)
      (sampleOutcome (fullProbs state n) r &&& measuredMask ms) i).2 *
        shotScale (keptNormSq state n (measuredMask ms)
          (sampleOutcome (fullProbs state n) r &&& measuredMask ms))) = _
  rw [hs, mul_one, mul_one]

theorem C8_zero_retained_norm_noop_witness :
    keptNormSq nullVec 1 (measuredMask [0])
      (sampleOutcome (fullProbs nullVec 1) (1 / 3) &&& measuredMask [0])
      = 0 ∧
    shotScale (keptNormSq nullVec 1 (measuredMask [0])
      (sampleOutcome (fullProbs nullVec 1) (1 / 3) &&& measuredMask [0]))
      = 1 := by
  have h0 : keptNormSq nullVec 1 (measuredMask [0])
      (sampleOutcome (fullProbs nullVec 1) (1 / 3) &&& measuredMask [0])
      = 0 := by
    simp [keptNormSq, nullVec, cAbs2]
  exact ⟨h0, (C8_zero_retained_norm_noop nullVec [0] 1 (1 / 3) h0).1⟩

/-! ### Claim C1: shot-mode partial collapse -/

theorem testBit_measuredMask (qs : List Nat) (k : Nat) :
    (measuredMask qs).testBit k = decide (k ∈ qs) := by
  have haux : ∀ acc : Nat,
      (qs.foldl (fun a q => a ||| 1 <<< q) acc).testBit k =
        (acc.testBit k || decide (k ∈ qs)) := by
    induction qs with
    | nil => intro acc; simp
    | cons q rest ih =>
      intro acc
      rw [List.foldl_cons, ih, Nat.testBit_lor, testBit_one_shiftLeft]
      have hqk : decide (q = k) = decide (k = q) := by
        rw [decide_eq_decide]; exact eq_comm
      rw [hqk]
      by_cases h1 : k = q
      · subst h1; simp
      · simp [h1]
  have h := haux 0
  simpa using h

theorem masked_eq_iff (i o : Nat) (qs : List Nat) :
    i &&& measuredMask qs = o &&& measuredMask qs ↔
      ∀ q ∈ qs, i.testBit q = o.testBit q := by
  constructor
  · intro h q hq
    have hb := congrArg (fun x => x.testBit q) h
    simp only [Nat.testBit_land, testBit_measuredMask] at hb
    rw [show decide (q ∈ qs) = true by simpa using hq] at hb
    simpa using hb
  · intro h
    apply Nat.eq_of_testBit_eq
    intro k
    simp only [Nat.testBit_land, testBit_measuredMask]
    by_cases hk : k ∈ qs
    · rw [h k hk]
    · simp [hk]

theorem normSq_scaled_projection (state : Nat → ℝ × ℝ)
    (n mask bits : Nat) (s : ℝ) :
    normSq (fun i => ((projectedState state mask bits i).1 * s,
      (projectedState state mask bits i).2 * s)) n =
      s ^ 2 * keptNormSq state n mask bits := by
  unfold normSq keptNormSq projectedState cAbs2
  dsimp only
  rw [Finset.mul_sum]
  apply Finset.sum_congr rfl
  intro i _
  by_cases hc : i &&& mask = bits
  · rw [if_pos hc, if_pos hc]; ring
  · rw [if_neg hc, if_neg hc]; ring

/-- C1.  The shot-mode collapse (the `nextState` `_processMeasurements`
returns): every surviving nonzero amplitude agrees with the sampled
outcome on all measured bit positions, every disagreeing amplitude is
zeroed, and when the retained squared norm is positive the collapsed
vector's squared norm is within `1e-9` of 1 (exactly 1 in exact
arithmetic). -/
theorem C1_shot_collapse_subspace (state : Nat → ℝ × ℝ) (ms : List Nat)
    (n : Nat) (r : ℝ) :
    (∀ gs : List Gate, gs.map (fun g => g.targets.getD 0 0) = ms →
      ∀ rng : SeededRNG,
        (processMeasurements state gs n "shot" rng).1.nextState =
          some (collapsedShotState state n ms (((rngNext rng).1 : ℚ) : ℝ))) ∧
    (∀ i, collapsedShotState state n ms r i ≠ (0, 0) →
      ∀ q ∈ ms, i.testBit q =
        (sampleOutcome (fullProbs state n) r).testBit q) ∧
    (∀ i, (¬ ∀ q ∈ ms, i.testBit q =
        (sampleOutcome (fullProbs state n) r).testBit q) →
      collapsedShotState state n ms r i = (0, 0)) ∧
    (0 < keptNormSq state n (measuredMask ms)
        (sampleOutcome (fullProbs state n) r &&& measuredMask ms) →
      |normSq (collapsedShotState state n ms r) n - 1| ≤ 1 / 1000000000) := by
  refine ⟨?_, ?_, ?_, ?_⟩
  · intro gs hgs rng
    simp only [processMeasurements]
    rw [if_neg (by decide), hgs]
  · intro i hi
    rw [← masked_eq_iff]
    by_contra hne
    apply hi
    show ((projectedState state (measuredMask ms)
        (sampleOutcome (fullProbs state n) r &&& measuredMask ms) i).1 * _,
      (projectedState state (measuredMask ms)
        (sampleOutcome (fullProbs state n) r &&& measuredMask ms) i).2 * _)
      = ((0 : ℝ), (0 : ℝ))
    unfold projectedState
    rw [if_neg hne]
    norm_num
  · intro i hi
    rw [← masked_eq_iff] at hi
    show ((projectedState state (measuredMask ms)
        (sampleOutcome (fullProbs state n) r &&& measuredMask ms) i).1 * _,
      (projectedState state (measuredMask ms)
        (sampleOutcome (fullProbs state n) r &&& measuredMask ms) i).2 * _)
      = ((0 : ℝ), (0 : ℝ))
    unfold projectedState
    rw [if_neg hi]
    norm_num
  · intro hk
    have h1 : normSq (collapsedShotState state n ms r) n =
        (shotScale (keptNormSq state n (measuredMask ms)
          (sampleOutcome (fullProbs state n) r &&& measuredMask ms))) ^ 2 *
          keptNormSq state n (measuredMask ms)
            (sampleOutcome (fullProbs state n) r &&& measuredMask ms) :=
      normSq_scaled_projection state n (measuredMask ms)
        (sampleOutcome (fullProbs state n) r &&& measuredMask ms)
        (shotScale (keptNormSq state n (measuredMask ms)
          (sampleOutcome (fullProbs state n) r &&& measuredMask ms)))
    have hscale : shotScale (keptNormSq state n (measuredMask ms)
        (sampleOutcome (fullProbs state n) r &&& measuredMask ms)) =
        1 / Real.sqrt (keptNormSq state n (measuredMask ms)
          (sampleOutcome (fullProbs state n) r &&& measuredMask ms)) := by
      unfold shotScale
      rw [if_neg (ne_of_gt hk)]
    rw [h1, hscale, div_pow, one_pow, Real.sq_sqrt hk.le,
      one_div_mul_cancel (ne_of_gt hk)]
    norm_num

theorem C1_shot_collapse_subspace_witness :
    0 < keptNormSq zeroKet 1 (measuredMask [0])
      (sampleOutcome (fullProbs zeroKet 1) (1 / 2) &&& measuredMask [0]) ∧
    |normSq (collapsedShotState zeroKet 1 [0] (1 / 2)) 1 - 1|
      ≤ 1 / 1000000000 := by
  have hfp : fullProbs zeroKet 1 = [1, 0] := by
    norm_num [fullProbs, zeroKet, cAbs2, List.range_succ]
  have ho : sampleOutcome (fullProbs zeroKet 1) ((1 : ℝ) / 2) = 0 := by
    rw [hfp]
    unfold sampleOutcome sampleAux
    norm_num
  have hpos : 0 < keptNormSq zeroKet 1 (measuredMask [0])
      (sampleOutcome (fullProbs zeroKet 1) (1 / 2) &&& measuredMask [0]) := by
    rw [ho]
    norm_num [keptNormSq, zeroKet, cAbs2, Finset.sum_range_succ, measuredMask]
  exact ⟨hpos,
    (C1_shot_collapse_subspace zeroKet [0] 1 (1 / 2)).2.2.2 hpos⟩

/-! ### Claim C4: probability mode never collapses the state -/

theorem statesOf_cons (x : SimStep) (l : List SimStep) :
    statesOf (x :: l) = x.stateVector :: statesOf l := rfl

theorem processMeasurements_probability (state : Nat → ℝ × ℝ)
    (ms : List Gate) (n : Nat) (rng : SeededRNG) :
    processMeasurements state ms n "probability" rng =
      (⟨fullProbs state n, ms.map fun g => g.targets.getD 0 0, none⟩, rng) := by
  simp only [processMeasurements]
  rw [if_pos trivial]

theorem simAux_probability_states (c : Circuit) :
    ∀ (cols : List Nat) (st : Nat → ℝ × ℝ) (rng : SeededRNG),
      statesOf (simAux c "probability" cols st rng) =
        (List.range cols.length).map
          (fun k => (cols.take (k + 1)).foldl
            (fun s col => columnUnitaryStep c s col) st) := by
  intro cols
  induction cols with
  | nil => intro st rng; rfl
  | cons col rest ih =>
    intro st rng
    simp only [simAux, processMeasurements_probability]
    by_cases hm : 0 < ((c.getGatesAtCol col).filter
        fun g => g.type = "Measure").length
    · rw [if_pos hm, statesOf_cons, ih, List.length_cons,
        List.range_succ_eq_map, List.map_cons, List.map_map]
      refine congrArg₂ (· :: ·) rfl ?_
      exact List.map_congr_left fun k _ => rfl
    · rw [if_neg hm, statesOf_cons, ih, List.length_cons,
        List.range_succ_eq_map, List.map_cons, List.map_map]
      refine congrArg₂ (· :: ·) rfl ?_
      exact List.map_congr_left fun k _ => rfl

theorem simulate_probability_states (c : Circuit) (input : Nat → ℝ × ℝ)
    (rng : SeededRNG) :
    statesOf (simulate c input "probability" rng) =
      (List.range (c.numCols + 1)).map (unitaryStateAt c input) := by
  show statesOf (⟨(-1 : Int), input, [], none⟩ ::
    simAux c "probability" (List.range c.numCols) input rng) = _
  rw [statesOf_cons, simAux_probability_states, List.length_range,
    List.range_succ_eq_map, List.map_cons, List.map_map]
  refine congrArg₂ (· :: ·) rfl ?_
  apply List.map_congr_left
  intro k hk
  show ((List.range c.numCols).take (k + 1)).foldl
    (fun s col => columnUnitaryStep c s col) input
    = unitaryStateAt c input (k + 1)
  rw [List.take_range, Nat.min_eq_left (List.mem_range.mp hk)]
  rfl

/-- C4.  In probability mode the simulation's state trajectory is exactly
the unitary-only trajectory (one state per column, plus the initial
snapshot), and `_processMeasurements` returns `nextState: null`, so the
measurement processing never alters the carried state. -/
theorem C4_probability_mode_nondestructive (c : Circuit)
    (input : Nat → ℝ × ℝ) (rng : SeededRNG) (st : Nat → ℝ × ℝ)
    (ms : List Gate) (n : Nat) (rng2 : SeededRNG) :
    statesOf (simulate c input "probability" rng) =
      (List.range (c.numCols + 1)).map (unitaryStateAt c input) ∧
    (processMeasurements st ms n "probability" rng2).1.nextState = none := by
  refine ⟨simulate_probability_states c input rng, ?_⟩
  rw [processMeasurements_probability]

/-! ### Claim C7: shot sampler characterization -/

theorem simAux_length (c : Circuit) (mode : String) :
    ∀ (cols : List Nat) (st : Nat → ℝ × ℝ) (rng : SeededRNG),
      (simAux c mode cols st rng).length = cols.length := by
  intro cols
  induction cols with
  | nil => intro st rng; rfl
  | cons col rest ih =>
    intro st rng
    simp only [simAux]
    by_cases hm : 0 < ((c.getGatesAtCol col).filter
        fun g => g.type = "Measure").length
    · rw [if_pos hm]
      simp only [List.length_cons, ih]
    · rw [if_neg hm]
      simp only [List.length_cons, ih]

theorem stateVector_getD (l : List SimStep) (k : Nat) (d : SimStep) :
    (l.getD k d).stateVector = (statesOf l).getD k d.stateVector := by
  unfold statesOf
  rw [List.getD_eq_getElem?_getD, List.getD_eq_getElem?_getD,
    List.getElem?_map]
  cases h : l[k]? with
  | none => rfl
  | some x => rfl

theorem simulate_probability_final (c : Circuit) (input : Nat → ℝ × ℝ)
    (rng : SeededRNG) :
    ((simulate c input "probability" rng).getD
        ((simulate c input "probability" rng).length - 1)
        ⟨(-1 : Int), input, [], none⟩).stateVector =
      unitaryStateAt c input c.numCols := by
  have hlen : (simulate c input "probability" rng).length = c.numCols + 1 := by
    show (⟨(-1 : Int), input, [], none⟩ ::
      simAux c "probability" (List.range c.numCols) input rng).length = _
    rw [List.length_cons, simAux_length, List.length_range]
  rw [hlen, stateVector_getD, simulate_probability_states,
    List.getD_eq_getElem?_getD, List.getElem?_map, Nat.add_sub_cancel,
    List.getElem?_range (by omega : c.numCols < c.numCols + 1)]
  rfl

theorem runShotsLoop_counts (n : Nat) (probs : List ℝ) :
    ∀ (k : Nat) (counts : String → Nat) (rng : SeededRNG),
      runShotsLoop n probs k counts rng = fun lbl =>
        counts lbl + ((outcomesFromRng probs rng k).map (binString n)).count
          lbl := by
  intro k
  induction k with
  | zero =>
    intro counts rng
    funext lbl
    simp [runShotsLoop, outcomesFromRng]
  | succ k ih =>
    intro counts rng
    simp only [runShotsLoop]
    rw [ih]
    funext lbl
    have hsplit : outcomesFromRng probs rng (k + 1) =
        sampleOutcome probs (((rngNext rng).1 : ℚ) : ℝ) ::
          outcomesFromRng probs (rngNextSt rng) k := by
      unfold outcomesFromRng
      rw [List.range_succ_eq_map, List.map_cons, List.map_map]
      refine congrArg₂ (· :: ·) rfl ?_
      apply List.map_congr_left
      intro s _
      show sampleOutcome probs
        (((rngNext (rngNextSt^[s + 1] rng)).1 : ℚ) : ℝ) = _
      rw [Function.iterate_succ_apply]
    rw [hsplit, List.map_cons, List.count_cons]
    simp only [bumpCount, rngNextSt]
    by_cases hl : lbl = binString n (sampleOutcome probs
        (((rngNext rng).1 : ℚ) : ℝ))
    · subst hl
      rw [if_pos rfl, if_pos (beq_self_eq_true _)]
      omega
    · rw [if_neg hl, if_neg (fun h => hl (eq_of_beq h).symm)]
      omega

/-- C7.  `runShots` ignores per-column collapse entirely: it equals
counting, per binary basis label, the outcomes obtained by applying the
cumulative-sum sampling rule `shots` times to the terminal unitary-only
state's distribution, with draws taken from the dedicated stream seeded
by the engine's seed — in particular the result does not depend on the
simulation's own (`Math.random()`-seeded) measurement generator
`measRng`. -/
theorem C7_runShots_terminal_sampling (c : Circuit) (input : Nat → ℝ × ℝ)
    (shots engineSeed : Nat) (measRng : SeededRNG) :
    runShots c input shots engineSeed measRng = fun lbl =>
      ((shotOutcomesList (fullProbs (unitaryStateAt c input c.numCols)
          c.numQubits) shots engineSeed).map
        (binString c.numQubits)).count lbl := by
  show runShotsLoop c.numQubits
      (fullProbs ((simulate c input "probability" measRng).getD
        ((simulate c input "probability" measRng).length - 1)
        ⟨(-1 : Int), input, [], none⟩).stateVector c.numQubits)
      shots (fun _ => 0) (mkRNG engineSeed) = _
  rw [simulate_probability_final, runShotsLoop_counts]
  funext lbl
  show 0 + _ = _
  rw [zero_add]
  rfl

end QCSim
